import Mathlib

/-!
Shallow embedding of `src/temp/parse_html_to_csv.py` (the HTML-to-CSV
normalization pipeline of the_goal_post) and proofs about its claims.

Numeric conventions: Python floats are modelled as exact rationals (ℚ);
Python `round(x, n)` rounds ties to even while `roundTo` below rounds
ties upward, but no value reachable in these claims sits on a tie, so
the two agree on every input considered here.  Strings are modelled as
`String`/`List Char`.
-/

namespace GoalPost

/-! ### Models of Python numeric parsing (`int(...)`, `float(...)`) -/

/-- Value of a decimal digit character, `none` for a non-digit. -/
def digitVal (c : Char) : Option ℕ :=
  if c.isDigit then some (c.toNat - 48) else none

/-- Accumulating decimal read of a digit list; fails on any non-digit. -/
def digitsCore : ℕ → List Char → Option ℕ
  | a, [] => some a
  | a, c :: cs =>
    match digitVal c with
    | some d => digitsCore (a * 10 + d) cs
    | none => none

/-- Decimal value of a non-empty all-digit character list. -/
def digitsVal (cs : List Char) : Option ℕ :=
  match cs with
  | [] => none
  | _ :: _ => digitsCore 0 cs

/-- Model of Python `float` on an unsigned decimal literal: digits with an
optional dot (`"12"`, `"12.5"`, `"12."`, `".5"`); anything else fails. -/
def parseUnsigned (cs : List Char) : Option ℚ :=
  match cs.dropWhile (fun c => c ≠ '.') with
  | [] => (digitsVal (cs.takeWhile (fun c => c ≠ '.'))).map (fun n : ℕ => (n : ℚ))
  | _ :: f =>
    if f.any (fun c => c = '.') then none
    else if f = [] then
      (digitsVal (cs.takeWhile (fun c => c ≠ '.'))).map (fun n : ℕ => (n : ℚ))
    else if cs.takeWhile (fun c => c ≠ '.') = [] then
      (digitsVal f).map (fun n : ℕ => (n : ℚ) / 10 ^ f.length)
    else
      match digitsVal (cs.takeWhile (fun c => c ≠ '.')), digitsVal f with
      | some a, some b => some ((a : ℚ) + (b : ℚ) / 10 ^ f.length)
      | _, _ => none

/-- Model of Python `float(...)`: an optional leading sign, then an
unsigned decimal literal. -/
def pyFloatL (cs : List Char) : Option ℚ :=
  if cs.head? = some '+' then parseUnsigned cs.tail
  else if cs.head? = some '-' then (parseUnsigned cs.tail).map Neg.neg
  else parseUnsigned cs

/-- Model of Python `int(...)`: an optional leading sign, then digits. -/
def pyIntL (cs : List Char) : Option ℤ :=
  if cs.head? = some '+' then (digitsVal cs.tail).map (fun n : ℕ => (n : ℤ))
  else if cs.head? = some '-' then (digitsVal cs.tail).map (fun n : ℕ => -(n : ℤ))
  else (digitsVal cs).map (fun n : ℕ => (n : ℤ))

/-- Model of Python `round(q, n)` (see the file comment on tie-breaking). -/
def roundTo (n : ℕ) (q : ℚ) : ℚ :=
  ((round (q * 10 ^ n) : ℤ) : ℚ) / 10 ^ n

/-! ### Prediction extractor (`parse_predictions_table`, lines 31-121) -/

/-- The data reachable from one `<tr>` whose id matched
`row_\d{4}_\d{2}_\w+_\w+`: the id parts, plus the optional sub-elements
(`None` models a failed `find`, and the attribute lookup for `market`
collapses a missing element, a missing attribute and an empty attribute
value into `none` / `some ""` as Python truthiness does). -/
structure PredRow where
  year : String
  week : String
  away_team : String
  home_team : String
  dateCell : Option String
  timeCell : Option String
  awayConfText : Option String
  homeConfText : Option String
  marketAttr : Option String
deriving DecidableEq

/-- One extracted game (the dict appended to `games`, lines 105-117). -/
structure PredictionRecord where
  week : ℤ
  date : String
  time : String
  away_team : String
  home_team : String
  predicted_away_score : ℚ
  predicted_home_score : ℚ
  confidence : ℚ
  away_confidence : ℚ
  home_confidence : ℚ
  market_percentage : ℤ
deriving DecidableEq

/-- Line 58: keep only digits and the characters `+`, `-`, `.`. -/
def cleanNumeric (cs : List Char) : List Char :=
  cs.filter (fun c => c.isDigit || c = '+' || c = '-' || c = '.')

/-- Lines 49-72: a missing element, a sign-free text, or a failed float
conversion all yield the 0.0 default. -/
def extractConfidence (t : Option String) : ℚ :=
  match t with
  | none => 0
  | some text =>
    if text.data.contains '+' || text.data.contains '-' then
      match pyFloatL (cleanNumeric text.data) with
      | some v => v
      | none => 0
    else 0

/-- Line 42: `date_cell.get_text().strip() if date_cell else "9/21"` — the
extracted date with its documented default.  Line 107 then ignores it and
hard-codes the record date (see `parseRow`). -/
def extractedDate (dateCell : Option String) : String :=
  dateCell.getD "9/21"

/-- Lines 75-78: market percentage defaults to 50 when the input element,
the attribute, or a non-empty value is missing; a present non-empty value
is fed to `int(...)`, whose failure (modelled as `none`) propagates. -/
def marketPct (attr : Option String) : Option ℤ :=
  match attr with
  | none => some 50
  | some s => if s = "" then some 50 else pyIntL s.data

/-- Lines 99-100: `max(14, min(35, score))`. -/
def clampScore (x : ℚ) : ℚ := max 14 (min 35 x)

/-- Lines 82-96, before clamping: `(predicted_away_score, predicted_home_score)`. -/
def rawScores (p : ℤ) : ℚ × ℚ :=
  let home_win_prob : ℚ := (p : ℚ) / 100
  let away_win_prob : ℚ := 1 - home_win_prob
  if home_win_prob > 1 / 2 then
    let point_diff := (home_win_prob - 1 / 2) * 28
    (24 - point_diff / 2, 24 + point_diff / 2)
  else
    let point_diff := (away_win_prob - 1 / 2) * 28
    (24 + point_diff / 2, 24 - point_diff / 2)

/-- Lines 82-100: raw scores, then both clamped to [14, 35]. -/
def derivedScores (p : ℤ) : ℚ × ℚ :=
  (clampScore (rawScores p).1, clampScore (rawScores p).2)

/-- Lines 103 and 113: `round(abs(p - 50) / 50.0, 2)`. -/
def derivedConfidence (p : ℤ) : ℚ :=
  roundTo 2 (|(p : ℚ) - 50| / 50)

/-- Lines 31-121 for a single matched row.  `none` models the path where an
exception escapes to the row-level handler and the row is skipped.  The
source also extracts `game_date` (line 42, default `"9/21"`) but then
hard-codes `date` to `"2025-09-21"` at line 107, so the extracted date is
dead and does not appear below. -/
def parseRow (r : PredRow) : Option PredictionRecord :=
  match pyIntL r.week.data, marketPct r.marketAttr with
  | some wk, some p =>
    some { week := wk
         , date := "2025-09-21"
         , time := r.timeCell.getD "1:00"
         , away_team := r.away_team
         , home_team := r.home_team
         , predicted_away_score := roundTo 1 (derivedScores p).1
         , predicted_home_score := roundTo 1 (derivedScores p).2
         , confidence := derivedConfidence p
         , away_confidence := extractConfidence r.awayConfText
         , home_confidence := extractConfidence r.homeConfText
         , market_percentage := p }
  | _, _ => none

/-- The whole extraction loop: rows whose parse fails are skipped. -/
def extractGames (rows : List PredRow) : List PredictionRecord :=
  rows.filterMap parseRow

/-! ### Betting-line extractor (`parse_betting_table`, lines 125-220) -/

/-- One betting line (the dict stored at lines 202-208). -/
structure BettingLine where
  away_team : String
  home_team : String
  market_spread : ℚ
  home_spread : ℚ
  total : ℚ
deriving DecidableEq

/-- The data reachable from a betting row that passed team-name resolution
and located its home-team spread span: the two abbreviations and the
stripped spread text (lines 166-190). -/
structure BettingRow where
  away_abbr : String
  home_abbr : String
  spread_text : String
deriving DecidableEq

/-- Lines 194-199: a leading `+` gives `float(rest)`, a leading `-` gives
`-float(rest)`, anything else is passed to `float` as-is. -/
def parseSpreadL (cs : List Char) : Option ℚ :=
  if cs.head? = some '+' then pyFloatL cs.tail
  else if cs.head? = some '-' then (pyFloatL cs.tail).map Neg.neg
  else pyFloatL cs

/-- String-level wrapper for `parseSpreadL`. -/
def parseSpread (text : String) : Option ℚ :=
  parseSpreadL text.data

/-- The print statements the pipeline emits, as structured events. -/
inductive LogEvent where
  | foundLine (away home : String) (spread : ℚ)
  | spreadParseFailure (text : String)
  | missingLineWarning (key : String)
deriving DecidableEq

/-- Python dict assignment `betting_lines[k] = v`. -/
def insertLine (m : String → Option BettingLine) (k : String) (v : BettingLine) :
    String → Option BettingLine :=
  fun q => if q = k then some v else m q

/-- Lines 192-214 for one row: a parsed spread inserts an entry and logs the
success line; a failed parse logs the failure and leaves the map unchanged. -/
def processBettingRow (st : (String → Option BettingLine) × List LogEvent)
    (r : BettingRow) : (String → Option BettingLine) × List LogEvent :=
  match parseSpreadL r.spread_text.data with
  | some hs =>
    let key := r.away_abbr ++ "_" ++ r.home_abbr
    (insertLine st.1 key
      { away_team := r.away_abbr, home_team := r.home_abbr
      , market_spread := hs, home_spread := hs, total := 45 },
     st.2 ++ [LogEvent.foundLine r.away_abbr r.home_abbr hs])
  | none => (st.1, st.2 ++ [LogEvent.spreadParseFailure r.spread_text])

/-- The whole betting-table loop, returning the mapping and the log. -/
def parseBettingTable (rows : List BettingRow) :
    (String → Option BettingLine) × List LogEvent :=
  rows.foldl processBettingRow ((fun _ => none), [])

/-! ### Joiner/emitter (`combine_data_and_generate_csv`, lines 222-270) -/

/-- A cell of the emitted delimited file, keeping the Python value kinds. -/
inductive CellValue where
  | int (n : ℤ)
  | str (s : String)
  | rat (q : ℚ)
deriving DecidableEq

/-- One emitted row (the dict passed to `writer.writerow`, lines 259-270). -/
structure OutputRow where
  week : ℤ
  date : String
  time : String
  away_team : String
  home_team : String
  predicted_away_score : ℚ
  predicted_home_score : ℚ
  confidence : ℚ
  market_spread_home : String
  total : ℚ
deriving DecidableEq

/-- The ten cells of an output row, in the `fieldnames` column order. -/
def OutputRow.cells (r : OutputRow) : List CellValue :=
  [CellValue.int r.week, CellValue.str r.date, CellValue.str r.time,
   CellValue.str r.away_team, CellValue.str r.home_team,
   CellValue.rat r.predicted_away_score, CellValue.rat r.predicted_home_score,
   CellValue.rat r.confidence, CellValue.str r.market_spread_home,
   CellValue.rat r.total]

/-- The header row written by `writer.writeheader()` (lines 226-233). -/
def headerCells : List CellValue :=
  [CellValue.str "Week", CellValue.str "Date", CellValue.str "Time",
   CellValue.str "Away Team", CellValue.str "Home Team",
   CellValue.str "Predicted Away Score", CellValue.str "Predicted Home Score",
   CellValue.str "Confidence", CellValue.str "Market Spread (Home)",
   CellValue.str "Total"]

/-- Big-endian decimal digits of `n`; the first argument is fuel (`n` itself
always suffices since a number has at most as many digits as its value). -/
def natStrAux : ℕ → ℕ → List Char
  | 0, _ => []
  | fuel + 1, n =>
    if n = 0 then [] else natStrAux fuel (n / 10) ++ [Char.ofNat (n % 10 + 48)]

/-- Decimal rendering of a natural number. -/
def natStrL (n : ℕ) : List Char :=
  if n = 0 then ['0'] else natStrAux n n

/-- Digits of `m` tenths rendered with one decimal place: `m = 204` gives
`"20.4"`. -/
def fixed1Core (m : ℕ) : List Char :=
  natStrL (m / 10) ++ '.' :: natStrL (m % 10)

/-- Model of Python `f"{q:.1f}"`: round to tenths, render the magnitude,
and prepend the sign of the value (so `-0.04` gives `"-0.0"`). -/
def formatFixed1L (q : ℚ) : List Char :=
  if q < 0 then '-' :: fixed1Core (round (q * 10)).natAbs
  else fixed1Core (round (q * 10)).natAbs

/-- Lines 250-255: positive spreads get an explicit `+`, negative spreads
keep their minus sign, zero is the literal `"0.0"`. -/
def formatSpreadL (home_spread : ℚ) : List Char :=
  if home_spread > 0 then '+' :: formatFixed1L home_spread
  else if home_spread < 0 then formatFixed1L home_spread
  else ['0', '.', '0']

/-- String-level wrapper for `formatSpreadL`. -/
def formatSpread (home_spread : ℚ) : String :=
  String.mk (formatSpreadL home_spread)

/-- Line 237: the join key `f"{away}_{home}"`. -/
def gameKey (g : PredictionRecord) : String :=
  g.away_team ++ "_" ++ g.home_team

/-- Lines 236-270 for one game: look up the betting line, default the
spread to 0.0 and the total to 45.0 when absent, format, and emit. -/
def joinGame (betting_lines : String → Option BettingLine)
    (g : PredictionRecord) : OutputRow :=
  let betting_data := betting_lines (gameKey g)
  let home_spread := (betting_data.map BettingLine.home_spread).getD 0
  let total := (betting_data.map BettingLine.total).getD 45
  { week := g.week, date := g.date, time := g.time
  , away_team := g.away_team, home_team := g.home_team
  , predicted_away_score := g.predicted_away_score
  , predicted_home_score := g.predicted_home_score
  , confidence := g.confidence
  , market_spread_home := formatSpread home_spread
  , total := total }

/-- The body rows of the emitted file, one per prediction, in order. -/
def combineRows (betting_lines : String → Option BettingLine)
    (preds : List PredictionRecord) : List OutputRow :=
  preds.map (joinGame betting_lines)

/-- The warnings printed at line 242, one per unmatched key, in order. -/
def combineWarnings (betting_lines : String → Option BettingLine)
    (preds : List PredictionRecord) : List LogEvent :=
  preds.filterMap (fun g =>
    if (betting_lines (gameKey g)).isNone
    then some (LogEvent.missingLineWarning (gameKey g)) else none)

/-- The whole emitted file: header row, then one row of cells per game. -/
def outputTable (betting_lines : String → Option BettingLine)
    (preds : List PredictionRecord) : List (List CellValue) :=
  headerCells :: (combineRows betting_lines preds).map OutputRow.cells

/-- A sample extractor input row used to instantiate theorems: market
percentage 50 and no optional sub-elements. -/
def sampleRow50 : PredRow :=
  { year := "2025", week := "03", away_team := "JAX", home_team := "HOU"
  , dateCell := none, timeCell := none
  , awayConfText := none, homeConfText := none, marketAttr := some "50" }

/-- The same row with a date cell present, to show the date is ignored. -/
def sampleRowDated : PredRow :=
  { sampleRow50 with dateCell := some "12/25" }

/-- The record both sample rows extract to. -/
def sampleRec50 : PredictionRecord :=
  { week := 3, date := "2025-09-21", time := "1:00"
  , away_team := "JAX", home_team := "HOU"
  , predicted_away_score := 24, predicted_home_score := 24
  , confidence := 0, away_confidence := 0, home_confidence := 0
  , market_percentage := 50 }

/-! ### Helper lemmas -/

theorem digitVal_ofNat : ∀ d : ℕ, d < 10 → digitVal (Char.ofNat (d + 48)) = some d := by
  decide

theorem digitsCore_append (xs ys : List Char) (a : ℕ) :
    digitsCore a (xs ++ ys) =
      match digitsCore a xs with
      | some b => digitsCore b ys
      | none => none := by
  induction xs generalizing a with
  | nil => simp [digitsCore]
  | cons c cs ih =>
    simp only [List.cons_append, digitsCore]
    cases digitVal c with
    | none => simp
    | some d => simp [ih]

theorem natStrAux_zero (fuel : ℕ) : natStrAux fuel 0 = [] := by
  cases fuel <;> simp [natStrAux]

theorem digitsCore_natStrAux :
    ∀ fuel n a, n ≤ fuel →
      digitsCore a (natStrAux fuel n) = some (a * 10 ^ (natStrAux fuel n).length + n) := by
  intro fuel
  induction fuel with
  | zero =>
    intro n a hn
    interval_cases n
    simp [natStrAux, digitsCore]
  | succ fuel ih =>
    intro n a hn
    by_cases h0 : n = 0
    · subst h0
      simp [natStrAux, digitsCore]
    · have hlt : n / 10 ≤ fuel := by
        have h1 : n / 10 < n := Nat.div_lt_self (Nat.pos_of_ne_zero h0) (by norm_num)
        omega
      have hstep : natStrAux (fuel + 1) n =
          natStrAux fuel (n / 10) ++ [Char.ofNat (n % 10 + 48)] := by
        simp [natStrAux, h0]
      rw [hstep, digitsCore_append, ih (n / 10) a hlt]
      have hd : digitVal (Char.ofNat (n % 10 + 48)) = some (n % 10) :=
        digitVal_ofNat (n % 10) (Nat.mod_lt n (by norm_num))
      simp only [digitsCore, hd]
      have : (a * 10 ^ (natStrAux fuel (n / 10)).length + n / 10) * 10 + n % 10 =
          a * 10 ^ ((natStrAux fuel (n / 10)).length + 1) + n := by
        rw [pow_succ]
        have := Nat.div_add_mod n 10
        ring_nf
        omega
      simp [List.length_append, this]

theorem digitsVal_natStrL (n : ℕ) : digitsVal (natStrL n) = some n := by
  by_cases h0 : n = 0
  · subst h0
    simp [natStrL, digitsVal, digitsCore, digitVal, Char.isDigit]
  · have hne : natStrAux n n ≠ [] := by
      have hstep : natStrAux n n = natStrAux (n - 1) (n / 10) ++ [Char.ofNat (n % 10 + 48)] := by
        obtain ⟨m, rfl⟩ : ∃ m, n = m + 1 := ⟨n - 1, by omega⟩
        simp [natStrAux, h0]
      simp [hstep]
    have hcore := digitsCore_natStrAux n n 0 le_rfl
    unfold natStrL digitsVal
    simp only [h0, if_false]
    cases hx : natStrAux n n with
    | nil => exact absurd hx hne
    | cons c cs =>
      rw [← hx, hcore]
      simp [hx]

theorem mem_natStrAux_isDigit :
    ∀ fuel n c, c ∈ natStrAux fuel n → c.isDigit = true := by
  intro fuel
  induction fuel with
  | zero => intro n c hc; simp [natStrAux] at hc
  | succ fuel ih =>
    intro n c hc
    by_cases h0 : n = 0
    · subst h0; simp [natStrAux] at hc
    · simp only [natStrAux, h0, if_false, List.mem_append, List.mem_singleton] at hc
      rcases hc with hc | hc
      · exact ih _ _ hc
      · subst hc
        have h10 : n % 10 < 10 := Nat.mod_lt n (by norm_num)
        interval_cases h : n % 10 <;> decide

theorem mem_natStrL_isDigit (n : ℕ) (c : Char) (hc : c ∈ natStrL n) :
    c.isDigit = true := by
  unfold natStrL at hc
  by_cases h0 : n = 0
  · simp [h0] at hc
    subst hc; decide
  · simp only [h0, if_false] at hc
    exact mem_natStrAux_isDigit n n c hc

theorem natStrL_ne_nil (n : ℕ) : natStrL n ≠ [] := by
  by_cases h0 : n = 0
  · simp [natStrL, h0]
  · unfold natStrL
    simp only [h0, if_false]
    obtain ⟨m, rfl⟩ : ∃ m, n = m + 1 := ⟨n - 1, by omega⟩
    simp [natStrAux, h0]

theorem takeWhile_append_all (p : Char → Bool) (xs ys : List Char)
    (h : ∀ c ∈ xs, p c = true) :
    (xs ++ ys).takeWhile p = xs ++ ys.takeWhile p := by
  induction xs with
  | nil => simp
  | cons c cs ih =>
    have hc : p c = true := h c (by simp)
    simp only [List.cons_append, List.takeWhile_cons, hc]
    simp [ih (fun d hd => h d (by simp [hd]))]

theorem dropWhile_append_all (p : Char → Bool) (xs ys : List Char)
    (h : ∀ c ∈ xs, p c = true) :
    (xs ++ ys).dropWhile p = ys.dropWhile p := by
  induction xs with
  | nil => simp
  | cons c cs ih =>
    have hc : p c = true := h c (by simp)
    simp only [List.cons_append, List.dropWhile_cons, hc]
    simp [ih (fun d hd => h d (by simp [hd]))]

theorem digitsVal_cons_nondigit (c : Char) (cs : List Char)
    (h : c.isDigit = false) : digitsVal (c :: cs) = none := by
  simp [digitsVal, digitsCore, digitVal, h]

theorem mem_natStrL_ne_dot (n : ℕ) (c : Char) (hc : c ∈ natStrL n) :
    c ≠ '.' := by
  intro h
  subst h
  have := mem_natStrL_isDigit n '.' hc
  simp [Char.isDigit] at this

theorem natStrL_length_small (d : ℕ) (hd : d < 10) : (natStrL d).length = 1 := by
  interval_cases d <;> decide

theorem parseUnsigned_fixed1 (m : ℕ) :
    parseUnsigned (fixed1Core m) = some ((m : ℚ) / 10) := by
  have hw : ∀ c ∈ natStrL (m / 10), (fun c => decide (c ≠ '.')) c = true := by
    intro c hc
    simp [mem_natStrL_ne_dot _ _ hc]
  have htake : (fixed1Core m).takeWhile (fun c => decide (c ≠ '.')) = natStrL (m / 10) := by
    unfold fixed1Core
    rw [takeWhile_append_all _ _ _ hw]
    simp [List.takeWhile_cons]
  have hdrop : (fixed1Core m).dropWhile (fun c => decide (c ≠ '.')) =
      '.' :: natStrL (m % 10) := by
    unfold fixed1Core
    rw [dropWhile_append_all _ _ _ hw]
    simp [List.dropWhile_cons]
  have hany : (natStrL (m % 10)).any (fun c => decide (c = '.')) = false := by
    simp only [List.any_eq_false]
    intro c hc
    simp [mem_natStrL_ne_dot _ _ hc]
  have hlen : (natStrL (m % 10)).length = 1 :=
    natStrL_length_small _ (Nat.mod_lt m (by norm_num))
  unfold parseUnsigned
  simp only [htake, hdrop, hany, natStrL_ne_nil, if_false, Bool.false_eq_true,
    digitsVal_natStrL, hlen]
  have h10 : (10 : ℚ) ^ 1 = 10 := by norm_num
  have hmod := Nat.div_add_mod m 10
  have hcast : (10 : ℚ) * ((m / 10 : ℕ) : ℚ) + ((m % 10 : ℕ) : ℚ) = (m : ℚ) := by
    exact_mod_cast congrArg (fun k : ℕ => (k : ℚ)) hmod
  simp only [h10]
  congr 1
  field_simp
  linarith

theorem head_fixed1_isDigit (m : ℕ) :
    ∃ c cs, fixed1Core m = c :: cs ∧ c.isDigit = true := by
  unfold fixed1Core
  cases hx : natStrL (m / 10) with
  | nil => exact absurd hx (natStrL_ne_nil _)
  | cons c cs =>
    refine ⟨c, cs ++ '.' :: natStrL (m % 10), by simp, ?_⟩
    exact mem_natStrL_isDigit (m / 10) c (by simp [hx])

theorem pyFloatL_fixed1 (m : ℕ) :
    pyFloatL (fixed1Core m) = some ((m : ℚ) / 10) := by
  obtain ⟨c, cs, hx, hdig⟩ := head_fixed1_isDigit m
  have hplus : c ≠ '+' := by
    intro h; subst h; simp [Char.isDigit] at hdig
  have hminus : c ≠ '-' := by
    intro h; subst h; simp [Char.isDigit] at hdig
  unfold pyFloatL
  rw [hx]
  simp only [List.head?_cons, Option.some.injEq, hplus, hminus, if_false]
  rw [← hx]
  exact parseUnsigned_fixed1 m

theorem parseUnsigned_cons_bad (c : Char) (cs : List Char)
    (hdig : c.isDigit = false) (hdot : c ≠ '.') :
    parseUnsigned (c :: cs) = none := by
  unfold parseUnsigned
  have htake : (c :: cs).takeWhile (fun c => decide (c ≠ '.')) =
      c :: cs.takeWhile (fun c => decide (c ≠ '.')) := by
    simp [List.takeWhile_cons, hdot]
  have hdrop : (c :: cs).dropWhile (fun c => decide (c ≠ '.')) =
      cs.dropWhile (fun c => decide (c ≠ '.')) := by
    simp [List.dropWhile_cons, hdot]
  simp only [htake, hdrop]
  cases hdw : cs.dropWhile (fun c => decide (c ≠ '.')) with
  | nil => simp [digitsVal_cons_nondigit c _ hdig]
  | cons d f =>
    by_cases hany : f.any (fun c => decide (c = '.')) = true
    · simp [hany]
    · simp only [hany, if_false]
      by_cases hf : f = []
      · simp [hf, digitsVal_cons_nondigit c _ hdig]
      · simp only [hf, if_false, List.cons_ne_nil, Bool.false_eq_true,
          digitsVal_cons_nondigit c _ hdig]

theorem pyFloatL_of_parseUnsigned (cs : List Char) (x : ℚ)
    (h : parseUnsigned cs = some x) : pyFloatL cs = some x := by
  cases cs with
  | nil => simp [parseUnsigned, digitsVal] at h
  | cons c t =>
    have hplus : c ≠ '+' := by
      intro hc; subst hc
      rw [parseUnsigned_cons_bad _ _ (by decide) (by decide)] at h
      exact Option.noConfusion h
    have hminus : c ≠ '-' := by
      intro hc; subst hc
      rw [parseUnsigned_cons_bad _ _ (by decide) (by decide)] at h
      exact Option.noConfusion h
    unfold pyFloatL
    simp only [List.head?_cons, Option.some.injEq, hplus, hminus, if_false]
    exact h

theorem parseUnsigned_nonneg (cs : List Char) (x : ℚ)
    (h : parseUnsigned cs = some x) : 0 ≤ x := by
  unfold parseUnsigned at h
  cases hdw : cs.dropWhile (fun c => decide (c ≠ '.')) with
  | nil =>
    rw [hdw] at h
    cases hv : digitsVal (cs.takeWhile (fun c => decide (c ≠ '.'))) with
    | none => rw [hv] at h; simp at h
    | some n =>
      rw [hv] at h
      simp only [Option.map_some', Option.some.injEq] at h
      subst h
      positivity
  | cons d f =>
    rw [hdw] at h
    by_cases hany : f.any (fun c => decide (c = '.')) = true
    · simp [hany] at h
    · simp only [hany, if_false, Bool.false_eq_true] at h
      by_cases hf : f = []
      · simp only [hf, if_true] at h
        cases hv : digitsVal (cs.takeWhile (fun c => decide (c ≠ '.'))) with
        | none => rw [hv] at h; simp at h
        | some n =>
          rw [hv] at h
          simp only [Option.map_some', Option.some.injEq] at h
          subst h
          positivity
      · simp only [hf, if_false] at h
        by_cases hw : cs.takeWhile (fun c => decide (c ≠ '.')) = []
        · simp only [hw, if_true] at h
          cases hv : digitsVal f with
          | none => rw [hv] at h; simp at h
          | some n =>
            rw [hv] at h
            simp only [Option.map_some', Option.some.injEq] at h
            subst h
            positivity
        · simp only [hw, if_false] at h
          cases ha : digitsVal (cs.takeWhile (fun c => decide (c ≠ '.'))) with
          | none => rw [ha] at h; cases hb : digitsVal f <;> rw [hb] at h <;> simp at h
          | some a =>
            rw [ha] at h
            cases hb : digitsVal f with
            | none => rw [hb] at h; simp at h
            | some b =>
              rw [hb] at h
              simp only [Option.some.injEq] at h
              subst h
              positivity

theorem roundTo_eq_self (n : ℕ) (q : ℚ) (k : ℤ) (h : q * 10 ^ n = (k : ℚ)) :
    roundTo n q = q := by
  have hpow : ((10 : ℚ) ^ n) ≠ 0 := by positivity
  rw [roundTo, h, round_intCast]
  field_simp [← h]

theorem roundTo_div (n : ℕ) (q : ℚ) (a : ℤ) (b : ℕ)
    (h : q * 10 ^ n + 1 / 2 = (a : ℚ) / ((b : ℕ) : ℚ)) :
    roundTo n q = ((a / (b : ℤ) : ℤ) : ℚ) / 10 ^ n := by
  rw [roundTo, round_eq, h, Rat.floor_intCast_div_natCast]

theorem parseSpreadL_plus_fixed1 (m : ℕ) :
    parseSpreadL ('+' :: fixed1Core m) = some ((m : ℚ) / 10) := by
  simp [parseSpreadL, pyFloatL_fixed1 m]

theorem parseSpreadL_minus_fixed1 (m : ℕ) :
    parseSpreadL ('-' :: fixed1Core m) = some (-((m : ℚ) / 10)) := by
  simp [parseSpreadL, pyFloatL_fixed1 m]

theorem parseSpreadL_bare_fixed1 (m : ℕ) :
    parseSpreadL (fixed1Core m) = some ((m : ℚ) / 10) := by
  obtain ⟨c, cs, hx, hdig⟩ := head_fixed1_isDigit m
  have hplus : c ≠ '+' := by
    intro h; subst h; simp [Char.isDigit] at hdig
  have hminus : c ≠ '-' := by
    intro h; subst h; simp [Char.isDigit] at hdig
  unfold parseSpreadL
  rw [hx]
  simp only [List.head?_cons, Option.some.injEq, hplus, hminus, if_false]
  rw [← hx]
  exact pyFloatL_fixed1 m

theorem round_bounds (s : ℚ) (h1 : -20 ≤ s) (h2 : s ≤ 20) :
    -200 ≤ round (s * 10) ∧ round (s * 10) ≤ 200 := by
  rw [round_eq]
  constructor
  · rw [Int.le_floor]
    push_cast
    linarith
  · have : ⌊s * 10 + 1 / 2⌋ < 201 := by
      rw [Int.floor_lt]
      push_cast
      linarith
    omega

theorem parse_format_roundtrip (s : ℚ) (h1 : -20 ≤ s) (h2 : s ≤ 20) :
    parseSpreadL (formatSpreadL s) = some (((round (s * 10) : ℤ) : ℚ) / 10) := by
  rcases lt_trichotomy s 0 with hs | hs | hs
  · have hn : round (s * 10) ≤ 0 := by
      have : round (s * 10) < 1 := by
        rw [round_eq, Int.floor_lt]
        push_cast
        linarith
      omega
    have habs : ((round (s * 10)).natAbs : ℚ) = -((round (s * 10) : ℤ) : ℚ) := by
      rw [Int.cast_natAbs]
      exact_mod_cast abs_of_nonpos hn
    have hform : formatSpreadL s = '-' :: fixed1Core (round (s * 10)).natAbs := by
      unfold formatSpreadL formatFixed1L
      rw [if_neg (by linarith), if_pos hs, if_pos hs]
    rw [hform, parseSpreadL_minus_fixed1, habs]
    ring_nf
  · subst hs
    have h0 : round ((0 : ℚ) * 10) = 0 := by
      norm_num
    have hform : formatSpreadL 0 = fixed1Core 0 := by
      decide
    rw [hform, parseSpreadL_bare_fixed1, h0]
    norm_num
  · have hn : 0 ≤ round (s * 10) := by
      rw [round_eq, Int.le_floor]
      push_cast
      linarith
    have habs : ((round (s * 10)).natAbs : ℚ) = ((round (s * 10) : ℤ) : ℚ) := by
      rw [Int.cast_natAbs]
      exact_mod_cast abs_of_nonneg hn
    have hform : formatSpreadL s = '+' :: fixed1Core (round (s * 10)).natAbs := by
      unfold formatSpreadL formatFixed1L
      rw [if_pos hs, if_neg (by linarith)]
    rw [hform, parseSpreadL_plus_fixed1, habs]

theorem round_div_ten_close (s : ℚ) :
    |((round (s * 10) : ℤ) : ℚ) / 10 - s| ≤ 1 / 20 := by
  have h := abs_sub_round (s * 10)
  have h10 : ((round (s * 10) : ℤ) : ℚ) / 10 - s = -((s * 10 - round (s * 10)) / 10) := by
    ring
  rw [h10, abs_neg, abs_div]
  rw [abs_of_pos (by norm_num : (0 : ℚ) < 10)]
  linarith

theorem rawScores_eq (p : ℤ) :
    rawScores p =
      if (p : ℚ) / 100 > 1 / 2 then
        (24 - ((p : ℚ) / 100 - 1 / 2) * 28 / 2, 24 + ((p : ℚ) / 100 - 1 / 2) * 28 / 2)
      else
        (24 + (1 - (p : ℚ) / 100 - 1 / 2) * 28 / 2, 24 - (1 - (p : ℚ) / 100 - 1 / 2) * 28 / 2) := by
  simp only [rawScores]

theorem rawScores_bounds (p : ℤ) (h0 : 0 ≤ p) (h1 : p ≤ 100) :
    17 ≤ (rawScores p).1 ∧ (rawScores p).1 ≤ 31 ∧
    17 ≤ (rawScores p).2 ∧ (rawScores p).2 ≤ 31 := by
  have hp0 : (0 : ℚ) ≤ (p : ℚ) := by exact_mod_cast h0
  have hp1 : (p : ℚ) ≤ 100 := by exact_mod_cast h1
  rw [rawScores_eq]
  split_ifs with h
  · refine ⟨?_, ?_, ?_, ?_⟩ <;> · simp only; linarith
  · refine ⟨?_, ?_, ?_, ?_⟩ <;> · simp only; linarith

theorem clampScore_of_bounds (x : ℚ) (h14 : 14 ≤ x) (h35 : x ≤ 35) :
    clampScore x = x := by
  unfold clampScore
  rw [min_eq_right h35, max_eq_right h14]

theorem derivedScores_eq_raw (p : ℤ) (h0 : 0 ≤ p) (h1 : p ≤ 100) :
    derivedScores p = rawScores p := by
  obtain ⟨b1, b2, b3, b4⟩ := rawScores_bounds p h0 h1
  unfold derivedScores
  rw [clampScore_of_bounds _ (by linarith) (by linarith),
    clampScore_of_bounds _ (by linarith) (by linarith)]

theorem derivedConfidence_eq (p : ℤ) :
    derivedConfidence p = |(p : ℚ) - 50| / 50 := by
  refine roundTo_eq_self 2 _ (2 * |p - 50|) ?_
  push_cast
  ring

theorem parseRow_some (r : PredRow) (g : PredictionRecord)
    (h : parseRow r = some g) :
    ∃ wk p, pyIntL r.week.data = some wk ∧ marketPct r.marketAttr = some p ∧
      g = { week := wk, date := "2025-09-21", time := r.timeCell.getD "1:00"
          , away_team := r.away_team, home_team := r.home_team
          , predicted_away_score := roundTo 1 (derivedScores p).1
          , predicted_home_score := roundTo 1 (derivedScores p).2
          , confidence := derivedConfidence p
          , away_confidence := extractConfidence r.awayConfText
          , home_confidence := extractConfidence r.homeConfText
          , market_percentage := p } := by
  unfold parseRow at h
  cases hw : pyIntL r.week.data with
  | none => rw [hw] at h; exact absurd h (by simp)
  | some wk =>
    cases hp : marketPct r.marketAttr with
    | none => rw [hw, hp] at h; exact absurd h (by simp)
    | some p =>
      rw [hw, hp] at h
      simp only [Option.some.injEq] at h
      exact ⟨wk, p, rfl, rfl, h.symm⟩

theorem parseRow_none_of_badMarket (r : PredRow) (s : String)
    (hattr : r.marketAttr = some s) (hne : s ≠ "")
    (hbad : pyIntL s.data = none) : parseRow r = none := by
  unfold parseRow
  have hmp : marketPct r.marketAttr = none := by
    rw [hattr]
    unfold marketPct
    simp [hne, hbad]
  rw [hmp]
  cases pyIntL r.week.data <;> rfl

theorem derivedScores_fifty : derivedScores 50 = (24, 24) := by
  rw [derivedScores_eq_raw 50 (by norm_num) (by norm_num), rawScores_eq,
    if_neg (by norm_num)]
  norm_num

theorem roundTo_one_24 : roundTo 1 24 = 24 :=
  roundTo_eq_self 1 24 240 (by norm_num)

theorem formatSpread_zero : formatSpread 0 = "0.0" := by
  unfold formatSpread formatSpreadL
  rw [if_neg (by norm_num), if_neg (by norm_num)]

theorem parseRow_sampleLike (r : PredRow) (hweek : r.week = "03")
    (htime : r.timeCell = none) (ha : r.awayConfText = none)
    (hh : r.homeConfText = none) (hm : r.marketAttr = some "50")
    (haway : r.away_team = "JAX") (hhome : r.home_team = "HOU") :
    parseRow r = some sampleRec50 := by
  have h1 : pyIntL r.week.data = some 3 := by rw [hweek]; decide
  have h2 : marketPct r.marketAttr = some 50 := by rw [hm]; decide
  unfold parseRow
  rw [h1, h2]
  simp only [Option.some.injEq, sampleRec50]
  rw [htime, ha, hh, haway, hhome]
  have hs1 : roundTo 1 (derivedScores 50).1 = 24 := by
    rw [derivedScores_fifty]; exact roundTo_one_24
  have hs2 : roundTo 1 (derivedScores 50).2 = 24 := by
    rw [derivedScores_fifty]; exact roundTo_one_24
  have hc : derivedConfidence 50 = 0 := by
    rw [derivedConfidence_eq]; norm_num
  rw [hs1, hs2, hc]
  rfl

theorem parseRow_sampleRow50 : parseRow sampleRow50 = some sampleRec50 :=
  parseRow_sampleLike sampleRow50 rfl rfl rfl rfl rfl rfl rfl

theorem parseRow_sampleRowDated : parseRow sampleRowDated = some sampleRec50 :=
  parseRow_sampleLike sampleRowDated rfl rfl rfl rfl rfl rfl rfl

/-! ### Claims -/

/-- Claim C1: for every market percentage p in [0, 100] the derivation
computes probability p/100 and differential |probability - 1/2| * 28,
gives 24 + differential/2 to the side whose win probability exceeds 1/2
and 24 - differential/2 to the other, and clamps both to [14, 35] (a
toss-up gives 24 to both sides). -/
theorem claim1_score_derivation (p : ℤ) (h0 : 0 ≤ p) (h1 : p ≤ 100) :
    ((p : ℚ) / 100 > 1 / 2 →
      (derivedScores p).2 = clampScore (24 + |(p : ℚ) / 100 - 1 / 2| * 28 / 2) ∧
      (derivedScores p).1 = clampScore (24 - |(p : ℚ) / 100 - 1 / 2| * 28 / 2)) ∧
    (1 - (p : ℚ) / 100 > 1 / 2 →
      (derivedScores p).1 = clampScore (24 + |(p : ℚ) / 100 - 1 / 2| * 28 / 2) ∧
      (derivedScores p).2 = clampScore (24 - |(p : ℚ) / 100 - 1 / 2| * 28 / 2)) ∧
    ((p : ℚ) / 100 = 1 / 2 → derivedScores p = (24, 24)) ∧
    (∀ x : ℚ, 14 ≤ clampScore x ∧ clampScore x ≤ 35) := by
  refine ⟨?_, ?_, ?_, ?_⟩
  · intro h
    have habs : |(p : ℚ) / 100 - 1 / 2| = (p : ℚ) / 100 - 1 / 2 :=
      abs_of_pos (by linarith)
    unfold derivedScores
    rw [rawScores_eq, if_pos h, habs]
    exact ⟨rfl, rfl⟩
  · intro h
    have habs : |(p : ℚ) / 100 - 1 / 2| = 1 / 2 - (p : ℚ) / 100 := by
      rw [abs_of_neg (by linarith)]; ring
    unfold derivedScores
    rw [rawScores_eq, if_neg (by intro hc; linarith), habs]
    constructor
    · simp only
      congr 2
      ring
    · simp only
      congr 2
      ring
  · intro h
    unfold derivedScores
    rw [rawScores_eq, if_neg (by rw [h]; exact lt_irrefl _), h]
    have h24 : clampScore 24 = 24 :=
      clampScore_of_bounds 24 (by norm_num) (by norm_num)
    norm_num [h24]
  · intro x
    exact ⟨le_max_left 14 _, max_le (by norm_num) (min_le_left 35 x)⟩

/-- Witness for C1 at the spec example p = 26: away 27.36, home 20.64. -/
theorem claim1_witness :
    (derivedScores 26).1 = 684 / 25 ∧ (derivedScores 26).2 = 516 / 25 := by
  have h := (claim1_score_derivation 26 (by norm_num) (by norm_num)).2.1 (by norm_num)
  push_cast at h
  have habs : |(26 : ℚ) / 100 - 1 / 2| = 6 / 25 := by
    rw [abs_of_neg (by norm_num)]; norm_num
  rw [h.1, h.2, habs,
    clampScore_of_bounds _ (by norm_num) (by norm_num),
    clampScore_of_bounds _ (by norm_num) (by norm_num)]
  norm_num

/-- Claim C2: the derived confidence equals |p - 50| / 50 (the two-decimal
rounding is exact), lies in [0, 1], and is symmetric about 50. -/
theorem claim2_confidence (p : ℤ) (h0 : 0 ≤ p) (h1 : p ≤ 100) :
    derivedConfidence p = |(p : ℚ) - 50| / 50 ∧
    0 ≤ derivedConfidence p ∧ derivedConfidence p ≤ 1 ∧
    ∀ d : ℤ, 0 ≤ d → d ≤ 50 →
      derivedConfidence (50 + d) = derivedConfidence (50 - d) := by
  have heq := derivedConfidence_eq p
  have hp0 : (0 : ℚ) ≤ (p : ℚ) := by exact_mod_cast h0
  have hp1 : (p : ℚ) ≤ 100 := by exact_mod_cast h1
  refine ⟨heq, ?_, ?_, ?_⟩
  · rw [heq]; positivity
  · rw [heq]
    rw [div_le_one (by norm_num)]
    rw [abs_le]
    constructor <;> linarith
  · intro d hd0 hd1
    rw [derivedConfidence_eq, derivedConfidence_eq]
    have t1 : ((50 + d : ℤ) : ℚ) - 50 = (d : ℚ) := by push_cast; ring
    have t2 : ((50 - d : ℤ) : ℚ) - 50 = -(d : ℚ) := by push_cast; ring
    rw [t1, t2, abs_neg]

/-- Witness for C2 at p = 26 and d = 24. -/
theorem claim2_witness :
    derivedConfidence 26 = 12 / 25 ∧
    derivedConfidence (50 + 24) = derivedConfidence (50 - 24) := by
  have h := claim2_confidence 26 (by norm_num) (by norm_num)
  refine ⟨?_, h.2.2.2 24 (by norm_num) (by norm_num)⟩
  rw [h.1, abs_of_neg (by norm_num)]
  norm_num

/-- Claim C3: the joiner emits exactly one output row per prediction
record, in order; an absent betting line logs a warning naming the key
and still emits the row with spread string "0.0" and total 45. -/
theorem claim3_join_total (preds : List PredictionRecord)
    (lines : String → Option BettingLine) :
    (combineRows lines preds).length = preds.length ∧
    (∀ i : ℕ, (combineRows lines preds)[i]? = (preds[i]?).map (joinGame lines)) ∧
    ∀ g ∈ preds, lines (gameKey g) = none →
      LogEvent.missingLineWarning (gameKey g) ∈ combineWarnings lines preds ∧
      (joinGame lines g).market_spread_home = "0.0" ∧
      (joinGame lines g).total = 45 := by
  refine ⟨by simp [combineRows], ?_, ?_⟩
  · intro i
    simp [combineRows]
  · intro g hg hmiss
    refine ⟨?_, ?_, ?_⟩
    · unfold combineWarnings
      exact List.mem_filterMap.mpr ⟨g, hg, by simp [hmiss]⟩
    · show formatSpread ((Option.map BettingLine.home_spread (lines (gameKey g))).getD 0) = "0.0"
      rw [hmiss]
      exact formatSpread_zero
    · show (Option.map BettingLine.total (lines (gameKey g))).getD 45 = 45
      rw [hmiss]
      rfl

/-- Witness for C3: one record joined against an empty betting map. -/
theorem claim3_witness :
    (combineRows (fun _ => none) [sampleRec50]).length = 1 ∧
    LogEvent.missingLineWarning "JAX_HOU" ∈
      combineWarnings (fun _ => none) [sampleRec50] ∧
    (joinGame (fun _ => none) sampleRec50).market_spread_home = "0.0" ∧
    (joinGame (fun _ => none) sampleRec50).total = 45 := by
  obtain ⟨h1, _, h3⟩ := claim3_join_total [sampleRec50] (fun _ => none)
  have hh := h3 sampleRec50 (by simp) rfl
  have hkey : gameKey sampleRec50 = "JAX_HOU" := rfl
  rw [hkey] at hh
  exact ⟨h1, hh.1, hh.2.1, hh.2.2⟩

/-- Claim C4: for every spread value s, rendering gives an explicit "+"
for positive values, keeps the minus sign for negative values, and
renders zero as "0.0"; and for s in [-20, 20] re-parsing the rendered
string recovers s to within one decimal place. -/
theorem claim4_spread_rendering (s : ℚ) :
    (s > 0 → formatSpreadL s = '+' :: formatFixed1L s) ∧
    (s < 0 → formatSpreadL s = formatFixed1L s ∧ (formatFixed1L s).head? = some '-') ∧
    (s = 0 → formatSpread s = "0.0") ∧
    (-20 ≤ s → s ≤ 20 →
      parseSpread (formatSpread s) = some (((round (s * 10) : ℤ) : ℚ) / 10) ∧
      |((round (s * 10) : ℤ) : ℚ) / 10 - s| ≤ 1 / 20) := by
  refine ⟨?_, ?_, ?_, ?_⟩
  · intro hs
    unfold formatSpreadL
    rw [if_pos hs]
  · intro hs
    constructor
    · unfold formatSpreadL
      rw [if_neg (by linarith), if_pos hs]
    · unfold formatFixed1L
      rw [if_pos hs]
      rfl
  · intro hs
    subst hs
    exact formatSpread_zero
  · intro h1 h2
    exact ⟨parse_format_roundtrip s h1 h2, round_div_ten_close s⟩

/-- Witness for C4 at s = -6.5, an exactly representable spread. -/
theorem claim4_witness :
    formatSpreadL (-(13 / 2)) = formatFixed1L (-(13 / 2)) ∧
    parseSpread (formatSpread (-(13 / 2))) = some (-(13 / 2)) := by
  have hfmt := (claim4_spread_rendering (-(13 / 2))).2.1 (by norm_num)
  have h := (claim4_spread_rendering (-(13 / 2))).2.2.2 (by norm_num) (by norm_num)
  have hcast : ((-(13 / 2) : ℚ) * 10) = ((-65 : ℤ) : ℚ) := by norm_num
  have hr : round ((-(13 / 2) : ℚ) * 10) = (-65 : ℤ) := by
    rw [hcast, round_intCast]
  refine ⟨hfmt.1, ?_⟩
  rw [h.1, hr]
  norm_num

/-- Claim C5: spread text with a "+" prefix parses to the (nonnegative)
decimal after it, "-" to its negation, other text is parsed as-is, and a
row whose spread text fails to parse is logged and skipped, inserting
nothing into the betting-line mapping. -/
theorem claim5_spread_parse :
    (∀ t : List Char, ∀ x : ℚ, parseUnsigned t = some x →
      parseSpreadL ('+' :: t) = some x ∧ 0 ≤ x) ∧
    (∀ t : List Char, ∀ x : ℚ, parseUnsigned t = some x →
      parseSpreadL ('-' :: t) = some (-x)) ∧
    (∀ cs : List Char, cs.head? ≠ some '+' → cs.head? ≠ some '-' →
      parseSpreadL cs = pyFloatL cs) ∧
    (∀ (rows : List BettingRow) (r : BettingRow),
      parseSpreadL r.spread_text.data = none →
      parseBettingTable (rows ++ [r]) =
        ((parseBettingTable rows).1,
         (parseBettingTable rows).2 ++ [LogEvent.spreadParseFailure r.spread_text])) := by
  refine ⟨?_, ?_, ?_, ?_⟩
  · intro t x hx
    have hf := pyFloatL_of_parseUnsigned t x hx
    exact ⟨by simp [parseSpreadL, hf], parseUnsigned_nonneg t x hx⟩
  · intro t x hx
    have hf := pyFloatL_of_parseUnsigned t x hx
    simp [parseSpreadL, hf]
  · intro cs hplus hminus
    unfold parseSpreadL
    rw [if_neg hplus, if_neg hminus]
  · intro rows r h
    unfold parseBettingTable
    rw [List.foldl_append]
    simp [processBettingRow, h]

/-- Witness for C5: "+3.5", "-3.5" and the unparsable "PK". -/
theorem claim5_witness :
    parseSpreadL ('+' :: ['3', '.', '5']) = some (7 / 2) ∧
    parseSpreadL ('-' :: ['3', '.', '5']) = some (-(7 / 2)) ∧
    (parseBettingTable
      [{ away_abbr := "JAX", home_abbr := "HOU", spread_text := "PK" }]).1 =
      (parseBettingTable []).1 := by
  obtain ⟨p1, p2, _, p4⟩ := claim5_spread_parse
  have hu : parseUnsigned ['3', '.', '5'] = some (7 / 2) := by
    have hval : parseUnsigned ['3', '.', '5'] =
        some (((3 : ℕ) : ℚ) + ((5 : ℕ) : ℚ) / 10 ^ (1 : ℕ)) := rfl
    rw [hval]
    norm_num
  have hnone : parseSpreadL
      ({ away_abbr := "JAX", home_abbr := "HOU", spread_text := "PK" } :
        BettingRow).spread_text.data = none := by
    decide
  refine ⟨(p1 _ _ hu).1, p2 _ _ hu, ?_⟩
  have hp := p4 [] _ hnone
  rw [List.nil_append] at hp
  rw [hp]

/-- Counterexample to C6 as stated: a row whose market attribute is the
unparsable "abc" is dropped entirely (the int() failure escapes to the
row-level handler), rather than the field defaulting to 50. -/
theorem claim6_counterexample :
    parseRow { sampleRow50 with marketAttr := some "abc" } = none :=
  parseRow_none_of_badMarket _ "abc" rfl (by decide) (by decide)

/-- Claim C6 (amended): missing sub-elements default per field (the
extracted date to the fixed string "9/21" — though the record then
carries the hard-coded "2025-09-21" regardless — time to "1:00", each
confidence to 0.0, market to 50, also for an empty market attribute),
and a confidence text whose cleaned form fails float conversion defaults
to 0.0 on either side; but a present non-empty market attribute that
fails integer parsing aborts the whole row instead of defaulting. -/
theorem claim6_defensive_defaults (r : PredRow) :
    (∀ g, parseRow r = some g →
      (r.dateCell = none →
        extractedDate r.dateCell = "9/21" ∧ g.date = "2025-09-21") ∧
      (r.timeCell = none → g.time = "1:00") ∧
      (r.awayConfText = none → g.away_confidence = 0) ∧
      (r.homeConfText = none → g.home_confidence = 0) ∧
      (∀ t, r.awayConfText = some t → pyFloatL (cleanNumeric t.data) = none →
        g.away_confidence = 0) ∧
      (∀ t, r.homeConfText = some t → pyFloatL (cleanNumeric t.data) = none →
        g.home_confidence = 0) ∧
      (r.marketAttr = none → g.market_percentage = 50) ∧
      (r.marketAttr = some "" → g.market_percentage = 50)) ∧
    (∀ s, r.marketAttr = some s → s ≠ "" → pyIntL s.data = none →
      parseRow r = none) := by
  constructor
  · intro g h
    obtain ⟨wk, p, hw, hp, hg⟩ := parseRow_some r g h
    subst hg
    refine ⟨?_, ?_, ?_, ?_, ?_, ?_, ?_, ?_⟩
    · intro hd
      refine ⟨?_, rfl⟩
      rw [hd]
      rfl
    · intro ht
      show r.timeCell.getD "1:00" = "1:00"
      rw [ht]
      rfl
    · intro ha
      show extractConfidence r.awayConfText = 0
      rw [ha]
      rfl
    · intro hh
      show extractConfidence r.homeConfText = 0
      rw [hh]
      rfl
    · intro t ht hbad
      show extractConfidence r.awayConfText = 0
      rw [ht]
      show (if (t.data.contains '+' || t.data.contains '-') = true then
          match pyFloatL (cleanNumeric t.data) with
          | some v => v
          | none => (0 : ℚ)
        else 0) = (0 : ℚ)
      by_cases hsign : (t.data.contains '+' || t.data.contains '-') = true
      · rw [if_pos hsign, hbad]
      · rw [if_neg hsign]
    · intro t ht hbad
      show extractConfidence r.homeConfText = 0
      rw [ht]
      show (if (t.data.contains '+' || t.data.contains '-') = true then
          match pyFloatL (cleanNumeric t.data) with
          | some v => v
          | none => (0 : ℚ)
        else 0) = (0 : ℚ)
      by_cases hsign : (t.data.contains '+' || t.data.contains '-') = true
      · rw [if_pos hsign, hbad]
      · rw [if_neg hsign]
    · intro hm
      rw [hm] at hp
      have h50 : (some (50 : ℤ) : Option ℤ) = some p := hp
      show p = 50
      exact (Option.some.inj h50).symm
    · intro hm
      rw [hm] at hp
      have h50 : (some (50 : ℤ) : Option ℤ) = some p := hp
      show p = 50
      exact (Option.some.inj h50).symm
  · intro s hs hne hbad
    exact parseRow_none_of_badMarket r s hs hne hbad

/-- Witness for the amended C6: defaults on the sample row, and the row
with market "abc" aborted. -/
theorem claim6_witness :
    extractedDate sampleRow50.dateCell = "9/21" ∧
    sampleRec50.time = "1:00" ∧ sampleRec50.away_confidence = 0 ∧
    sampleRec50.home_confidence = 0 ∧
    parseRow { sampleRow50 with marketAttr := some "abc" } = none := by
  have h := (claim6_defensive_defaults sampleRow50).1 sampleRec50 parseRow_sampleRow50
  exact ⟨(h.1 rfl).1, h.2.1 rfl, h.2.2.1 rfl, h.2.2.2.1 rfl,
    (claim6_defensive_defaults { sampleRow50 with marketAttr := some "abc" }).2
      "abc" rfl (by decide) (by decide)⟩

/-- Claim C7: the emitted table starts with the fixed header, has exactly
one body row per prediction record in input order, each row carrying the
ten columns in the contract order; extraction itself is order-preserving
(concatenation-compatible). -/
theorem claim7_output_schema (preds : List PredictionRecord)
    (lines : String → Option BettingLine) :
    (outputTable lines preds).head? = some headerCells ∧
    headerCells =
      [CellValue.str "Week", CellValue.str "Date", CellValue.str "Time",
       CellValue.str "Away Team", CellValue.str "Home Team",
       CellValue.str "Predicted Away Score", CellValue.str "Predicted Home Score",
       CellValue.str "Confidence", CellValue.str "Market Spread (Home)",
       CellValue.str "Total"] ∧
    (outputTable lines preds).length = preds.length + 1 ∧
    (∀ i : ℕ, (outputTable lines preds)[i + 1]? =
      (preds[i]?).map (fun g => (joinGame lines g).cells)) ∧
    (∀ g : PredictionRecord, (joinGame lines g).cells =
      [CellValue.int g.week, CellValue.str g.date, CellValue.str g.time,
       CellValue.str g.away_team, CellValue.str g.home_team,
       CellValue.rat g.predicted_away_score, CellValue.rat g.predicted_home_score,
       CellValue.rat g.confidence,
       CellValue.str (formatSpread
         ((Option.map BettingLine.home_spread (lines (gameKey g))).getD 0)),
       CellValue.rat ((Option.map BettingLine.total (lines (gameKey g))).getD 45)]) ∧
    (∀ rows1 rows2 : List PredRow,
      extractGames (rows1 ++ rows2) = extractGames rows1 ++ extractGames rows2) := by
  refine ⟨rfl, rfl, by simp [outputTable, combineRows], ?_, ?_, ?_⟩
  · intro i
    show (headerCells :: (combineRows lines preds).map OutputRow.cells)[i + 1]? = _
    rw [List.getElem?_cons_succ, List.getElem?_map]
    unfold combineRows
    rw [List.getElem?_map]
    cases preds[i]? <;> rfl
  · intro g
    rfl
  · intro rows1 rows2
    unfold extractGames
    exact List.filterMap_append rows1 rows2 parseRow

/-- Witness for C7: the single-record table against an empty mapping. -/
theorem claim7_witness :
    (outputTable (fun _ => none) [sampleRec50])[1]? =
      some [CellValue.int 3, CellValue.str "2025-09-21", CellValue.str "1:00",
        CellValue.str "JAX", CellValue.str "HOU", CellValue.rat 24,
        CellValue.rat 24, CellValue.rat 0, CellValue.str "0.0",
        CellValue.rat 45] := by
  have h := (claim7_output_schema [sampleRec50] (fun _ => none)).2.2.2.1 0
  rw [h]
  simp only [List.getElem?_cons_zero, Option.map_some']
  have hc := (claim7_output_schema [sampleRec50] (fun _ => none)).2.2.2.2.1 sampleRec50
  rw [hc]
  simp [sampleRec50, formatSpread_zero]

/-- Claim C8: a prediction row with market percentage exactly 50 yields
predicted scores (24, 24) and confidence 0. -/
theorem claim8_toss_up (r : PredRow) (g : PredictionRecord)
    (h : parseRow r = some g) (hm : g.market_percentage = 50) :
    g.predicted_away_score = 24 ∧ g.predicted_home_score = 24 ∧
    g.confidence = 0 := by
  obtain ⟨wk, p, hw, hp, hg⟩ := parseRow_some r g h
  subst hg
  have hp50 : p = 50 := hm
  subst hp50
  refine ⟨?_, ?_, ?_⟩
  · show roundTo 1 (derivedScores 50).1 = 24
    rw [derivedScores_fifty]
    exact roundTo_one_24
  · show roundTo 1 (derivedScores 50).2 = 24
    rw [derivedScores_fifty]
    exact roundTo_one_24
  · show derivedConfidence 50 = 0
    rw [derivedConfidence_eq]
    norm_num

/-- Witness for C8 on the sample row with market attribute "50". -/
theorem claim8_witness :
    sampleRec50.predicted_away_score = 24 ∧
    sampleRec50.predicted_home_score = 24 ∧ sampleRec50.confidence = 0 :=
  claim8_toss_up sampleRow50 sampleRec50 parseRow_sampleRow50 rfl

/-- Claim C9: every record the extractor emits carries the constant date
"2025-09-21" (the extracted date text never reaches the record), and the
joiner copies that constant into the output row. -/
theorem claim9_date_constant (r : PredRow) (g : PredictionRecord)
    (h : parseRow r = some g) :
    g.date = "2025-09-21" ∧
    ∀ lines : String → Option BettingLine,
      (joinGame lines g).date = "2025-09-21" := by
  obtain ⟨wk, p, hw, hp, hg⟩ := parseRow_some r g h
  subst hg
  exact ⟨rfl, fun lines => rfl⟩

/-- Witness for C9 on a row whose document date cell reads "12/25". -/
theorem claim9_witness :
    sampleRowDated.dateCell = some "12/25" ∧ sampleRec50.date = "2025-09-21" :=
  ⟨rfl, (claim9_date_constant sampleRowDated sampleRec50 parseRow_sampleRowDated).1⟩

/-- Claim C10: for p in [0, 100] the unclamped scores already lie in
[17, 31], so clamping to [14, 35] changes nothing. -/
theorem claim10_clamp_identity (p : ℤ) (h0 : 0 ≤ p) (h1 : p ≤ 100) :
    17 ≤ (rawScores p).1 ∧ (rawScores p).1 ≤ 31 ∧
    17 ≤ (rawScores p).2 ∧ (rawScores p).2 ≤ 31 ∧
    derivedScores p = rawScores p := by
  obtain ⟨b1, b2, b3, b4⟩ := rawScores_bounds p h0 h1
  exact ⟨b1, b2, b3, b4, derivedScores_eq_raw p h0 h1⟩

/-- Witness for C10 at the extreme p = 0. -/
theorem claim10_witness :
    derivedScores 0 = rawScores 0 ∧ 17 ≤ (rawScores 0).1 := by
  have h := claim10_clamp_identity 0 le_rfl (by norm_num)
  exact ⟨h.2.2.2.2, h.1⟩

end GoalPost
